import Mathlib

/-
Verification development for a voxel world engine (chunked block world with
load-count chunk lifecycle, asynchronous task execution, a greedy mesher with
per-vertex ambient occlusion, render-zone dirty tracking, and a DDA raycast).

The Rust source is embedded shallowly:
* machine integers (i32, u64, usize) become Int / Nat; u64 counter arithmetic
  keeps explicit wraparound mod 2 ^ 64 where the source uses atomic
  fetch_add / fetch_sub (which wrap, never trap);
* Rust signed integer division and remainder (round toward zero) become
  Int.tdiv and Int.tmod;
* the hash map stores become functions into Option, hash sets become Finset;
* f32 values in the raycast become exact rationals; the theorems about the
  raycast only use inputs on which every f32 operation performed by the run
  is exact, so the rational model computes the same values as the source;
* loops without a structural bound take an explicit fuel argument; the
  theorems supply fuel strictly larger than the number of iterations the
  bounded run actually performs, so the fuel-exhausted branch is never taken.
-/

namespace Minecone

/-- CHUNK_SIZE from chunk.rs (pub const CHUNK_SIZE: usize = 32), as Int. -/
def CHUNK_SIZE : ℤ := 32

/-- Rust division on i32: rounds toward zero (Int.tdiv). -/
def rustDiv (a b : ℤ) : ℤ := a.tdiv b

/-- Rust remainder on i32: sign of the dividend (Int.tmod). -/
def rustRem (a b : ℤ) : ℤ := a.tmod b

/-- Integer 3-vector, modelling glam IVec3. The source wraps IVec3 in the
newtypes ChunkPos and BlockPos; both are modelled by this one structure. -/
structure IVec3 where
  x : ℤ
  y : ℤ
  z : ℤ
deriving DecidableEq, Repr

/-- Position of a chunk in chunk coordinates (types.rs ChunkPos). -/
abbrev ChunkPos := IVec3

/-- Position of a block in chunk space (types.rs BlockPos). -/
abbrev BlockPos := IVec3

def IVec3.add (a b : IVec3) : IVec3 := ⟨a.x + b.x, a.y + b.y, a.z + b.z⟩

def IVec3.sub (a b : IVec3) : IVec3 := ⟨a.x - b.x, a.y - b.y, a.z - b.z⟩

instance instAddIVec3 : Add IVec3 := ⟨IVec3.add⟩

instance instSubIVec3 : Sub IVec3 := ⟨IVec3.sub⟩

/-- One component of the From BlockPos for ChunkPos conversion
(types.rs lines 118-128): if elem >= 0 then elem / 32 else (elem - 31) / 32,
with Rust division. -/
def coordToChunk (elem : ℤ) : ℤ :=
  if 0 ≤ elem then rustDiv elem 32 else rustDiv (elem - (32 - 1)) 32

/-- impl From BlockPos for ChunkPos (types.rs lines 118-128). -/
def chunkPosFromBlockPos (p : BlockPos) : ChunkPos :=
  ⟨coordToChunk p.x, coordToChunk p.y, coordToChunk p.z⟩

/-- impl From ChunkPos for BlockPos (types.rs lines 205-209): componentwise
multiplication by CHUNK_SIZE. -/
def ChunkPos.asBlockPos (c : ChunkPos) : BlockPos :=
  ⟨c.x * 32, c.y * 32, c.z * 32⟩

/-- One component of BlockPos::as_chunk_local (types.rs lines 161-169):
if elem >= 0 then elem % 32 else 32 + ((elem + 1) % 32) - 1, Rust remainder. -/
def localCoord (elem : ℤ) : ℤ :=
  if 0 ≤ elem then rustRem elem 32 else 32 + rustRem (elem + 1) 32 - 1

/-- BlockPos::as_chunk_local (types.rs lines 161-169). -/
def BlockPos.asChunkLocal (p : BlockPos) : BlockPos :=
  ⟨localCoord p.x, localCoord p.y, localCoord p.z⟩

/-- BlockPos::as_chunk_pos (types.rs line 153). -/
def BlockPos.asChunkPos (p : BlockPos) : ChunkPos := chunkPosFromBlockPos p

/-- BlockPos::as_chunk_block_pos (types.rs lines 171-173). -/
def BlockPos.asChunkBlockPos (p : BlockPos) : ChunkPos × BlockPos :=
  (chunkPosFromBlockPos p, p.asChunkLocal)

/-- BlockPos::is_chunk_local (types.rs lines 146-151). -/
def BlockPos.isChunkLocal (p : BlockPos) : Bool :=
  decide ((0 ≤ p.x ∧ p.x < 32) ∧ (0 ≤ p.y ∧ p.y < 32) ∧ (0 ≤ p.z ∧ p.z < 32))

/-- Block face directions (block/mod.rs BlockFace). -/
inductive BlockFace
  | xPos
  | xNeg
  | yPos
  | yNeg
  | zPos
  | zNeg
deriving DecidableEq, Repr

/-- BlockFace::iter order (block/mod.rs lines 80-113). -/
def blockFaceList : List BlockFace :=
  [.xPos, .xNeg, .yPos, .yNeg, .zPos, .zNeg]

/-- BlockFace::block_pos_offset (block/mod.rs lines 54-63). -/
def BlockFace.blockPosOffset : BlockFace → BlockPos
  | .xPos => ⟨1, 0, 0⟩
  | .xNeg => ⟨-1, 0, 0⟩
  | .yPos => ⟨0, 1, 0⟩
  | .yNeg => ⟨0, -1, 0⟩
  | .zPos => ⟨0, 0, 1⟩
  | .zNeg => ⟨0, 0, -1⟩

/-- BlockFace::is_positive_face (block/mod.rs lines 65-67). -/
def BlockFace.isPositiveFace : BlockFace → Bool
  | .xPos | .yPos | .zPos => true
  | _ => false

/-- The closed set of block kinds (block/mod.rs blocks! macro invocation):
untextured Air, textured TestBlock, Dirt, Grass, Stone, RockyDirt. -/
inductive Block
  | air
  | testBlock
  | dirt
  | grass
  | stone
  | rockyDirt
deriving DecidableEq, Repr

/-- BlockType discriminants in declaration order of the generated enum:
textured kinds first, then untextured (block/mod.rs blocks! macro). -/
inductive BlockType
  | testBlock
  | dirt
  | grass
  | stone
  | rockyDirt
  | air
deriving DecidableEq, Repr

/-- Block::block_type (generated by the blocks! macro). -/
def Block.blockType : Block → BlockType
  | .air => .air
  | .testBlock => .testBlock
  | .dirt => .dirt
  | .grass => .grass
  | .stone => .stone
  | .rockyDirt => .rockyDirt

/-- BlockType as u8: the enum discriminant in declaration order. -/
def BlockType.toU8 : BlockType → ℕ
  | .testBlock => 0
  | .dirt => 1
  | .grass => 2
  | .stone => 3
  | .rockyDirt => 4
  | .air => 5

/-- MaxTextureIndex::Max as u8: the number of textured kinds (5). -/
def maxTextureIndexMax : ℕ := 5

/-- Block::is_air (block/mod.rs lines 424-426). -/
def Block.isAir : Block → Bool
  | .air => true
  | _ => false

/-- BlockTrait::is_translucent for each kind: Air true (air.rs), TestBlock
true (test_block.rs, deliberately), the rest false. -/
def Block.isTranslucent : Block → Bool
  | .air => true
  | .testBlock => true
  | _ => false

/-- Block::texture_index (block/mod.rs lines 428-435): None when the
discriminant is at or above MaxTextureIndex::Max, else the discriminant. -/
def Block.textureIndex (b : Block) : Option ℤ :=
  if maxTextureIndexMax ≤ b.blockType.toU8 then none else some (b.blockType.toU8 : ℤ)

/-- RENDER_ZONE_SIZE from render_zone.rs. -/
def RENDER_ZONE_SIZE : ℤ := 8

/-- One component of UpdatedRenderZones::get_render_zone_of_chunk
(render_zone.rs lines 16-24): if elem >= 0 then elem / 8
else (elem - 8 + 1) / 8, with Rust division; the result is then scaled by 8. -/
def zoneCoord (elem : ℤ) : ℤ :=
  if 0 ≤ elem then rustDiv elem 8 else rustDiv (elem - 8 + 1) 8

/-- UpdatedRenderZones::get_render_zone_of_chunk (render_zone.rs lines 16-24). -/
def getRenderZoneOfChunk (c : ChunkPos) : ChunkPos :=
  ⟨8 * zoneCoord c.x, 8 * zoneCoord c.y, 8 * zoneCoord c.z⟩

/-- The dirty render-zone set (render_zone.rs UpdatedRenderZones wraps an
FxHashSet of ChunkPos, modelled as a Finset). -/
abbrev UpdatedRenderZones := Finset ChunkPos

/-- UpdatedRenderZones::mark_chunk (render_zone.rs lines 30-32). -/
def markChunk (s : UpdatedRenderZones) (c : ChunkPos) : UpdatedRenderZones :=
  insert (getRenderZoneOfChunk c) s

/-- UpdatedRenderZones::mark_block (render_zone.rs lines 26-28). -/
def markBlock (s : UpdatedRenderZones) (b : BlockPos) : UpdatedRenderZones :=
  markChunk s (chunkPosFromBlockPos b)

/-- The inclusive Rust range a..=b stepped by step_by step, for step > 0. -/
def stepRangeIncl (a b step : ℤ) : List ℤ :=
  (List.range ((b - a) / step + 1).toNat).map (fun i : ℕ => a + step * (i : ℤ))

/-- UpdatedRenderZones::mark_chunk_zone (render_zone.rs lines 34-45):
insert every zone corner between the zones of min_chunk and max_chunk - 1,
stepped by the zone size on every axis. -/
def markChunkZone (s : UpdatedRenderZones) (minChunk maxChunk : ChunkPos) :
    UpdatedRenderZones :=
  let minZ := getRenderZoneOfChunk minChunk
  let maxZ := getRenderZoneOfChunk (maxChunk - ⟨1, 1, 1⟩)
  (stepRangeIncl minZ.x maxZ.x 8).foldl (fun s1 x =>
    (stepRangeIncl minZ.y maxZ.y 8).foldl (fun s2 y =>
      (stepRangeIncl minZ.z maxZ.z 8).foldl (fun s3 z =>
        insert (⟨x, y, z⟩ : ChunkPos) s3) s2) s1) s

/-- Occlusion levels of the four corners of a cell (block/mod.rs
OcclusionCorners). -/
structure OcclusionCorners where
  tl : ℕ
  tr : ℕ
  bl : ℕ
  br : ℕ
deriving DecidableEq, Repr

/-- One emitted quad of the greedy mesher. The source builds a
BlockFaceMesh via BlockFaceMesh::from_cube_corners(face,
block.texture_index().unwrap(), neg_corner, pos_corner, occlusion); the model
records the arguments of that call, keeping the block whose texture_index is
unwrapped (srcBlock) so that the unwrap can be reasoned about. The expansion
of the corners into four vertices (a fixed per-face lookup) is not needed by
any claim and is not modelled. -/
structure BlockFaceMeshModel where
  face : BlockFace
  srcBlock : Block
  negCorner : BlockPos
  posCorner : BlockPos
  occ : OcclusionCorners
deriving DecidableEq, Repr

/-- Per-chunk state (chunk.rs Chunk): the CHUNK_SIZE cubed block grid (a
function on chunk-local coordinates), the chunk coordinate, and the cached
mesh, one quad list per face and slice index. -/
structure Chunk where
  blocks : BlockPos → Block
  chunkPosition : ChunkPos
  chunkMesh : BlockFace → ℕ → List BlockFaceMeshModel

/-- Chunk::new (chunk.rs lines 154-178): the grid at local position p holds
block_fn(p + block_position); the mesh cache starts empty. -/
def chunkNew (blockFn : BlockPos → Block) (position : ChunkPos) : Chunk :=
  { blocks := fun p => blockFn (p + position.asBlockPos)
    chunkPosition := position
    chunkMesh := fun _ _ => [] }

/-- LoadedChunk (chunk.rs lines 404-407): a chunk plus its atomic u64
load-reference count. -/
structure LoadedChunk where
  chunk : Chunk
  loadCount : ℕ

/-- LoadedChunk::new (chunk.rs lines 410-416): the count starts at 0. -/
def loadedChunkNew (c : Chunk) : LoadedChunk :=
  { chunk := c, loadCount := 0 }

/-- The modulus of the u64 load counter. -/
def U64_MOD : ℕ := 2 ^ 64

/-- LoadedChunk::inc_load_count (chunk.rs lines 418-420): wrapping
fetch_add(1). -/
def LoadedChunk.incLoadCount (lc : LoadedChunk) : LoadedChunk :=
  { lc with loadCount := (lc.loadCount + 1) % U64_MOD }

/-- LoadedChunk::dec_load_count (chunk.rs lines 422-424) returns the
decremented value: wrapping fetch_sub(1) followed by - 1 equals
count - 1 mod 2 ^ 64. -/
def decResult (count : ℕ) : ℕ := (count + (U64_MOD - 1)) % U64_MOD

/-- The concurrent chunk map World.chunks (an FxDashMap from ChunkPos to
LoadedChunk), modelled as a function into Option. -/
abbrev ChunkStore := ChunkPos → Option LoadedChunk

/-- Pointwise update of the chunk store. -/
def storeUpdate (s : ChunkStore) (c : ChunkPos) (v : Option LoadedChunk) :
    ChunkStore :=
  fun c2 => if c2 = c then v else s c2

/-- Chunk::with_block (chunk.rs lines 183-194): a chunk-local position reads
the own grid; otherwise the neighbor chunk at as_chunk_pos + chunk_position
is looked up in the world store, returning none when it is absent. -/
def withBlockIn (store : ChunkStore) (own : BlockPos → Block)
    (selfChunkPos : ChunkPos) (p : BlockPos) : Option Block :=
  if p.isChunkLocal then some (own p)
  else
    match store (p.asChunkPos + selfChunkPos) with
    | some lc => some (lc.chunk.blocks p.asChunkLocal)
    | none => none

/-- VisitedBlockMap::get_block_pos (chunk.rs lines 44-50): the block at
in-plane coordinates (x, y) of the slice at coord3 of the given face. -/
def getBlockPosOf (face : BlockFace) (coord3 x y : ℤ) : BlockPos :=
  match face with
  | .xPos | .xNeg => ⟨coord3, x, y⟩
  | .yPos | .yNeg => ⟨x, coord3, y⟩
  | .zPos | .zNeg => ⟨x, y, coord3⟩

/-- The visibility rule of the first pass of Chunk::mesh_update_inner
(chunk.rs lines 256-268) for the cell at in-plane (x, y): an air block is
visited (skipped); a block whose neighbor along the face normal exists is
visited iff that neighbor is not translucent; when the neighbor chunk is
absent the cell is visited (skipped, never guessed). -/
def visRule (store : ChunkStore) (own : BlockPos → Block)
    (selfChunkPos : ChunkPos) (face : BlockFace) (coord3 x y : ℤ) : Bool :=
  let bp := getBlockPosOf face coord3 x y
  if (own bp).isAir then true
  else
    match withBlockIn store own selfChunkPos (bp + face.blockPosOffset) with
    | some b => !b.isTranslucent
    | none => true

/-- The visited map after the visibility pass. The source writes every cell
of the 32 x 32 visited array exactly once in this pass (the map starts or is
reset all-false for out-of-range queries, which the source never makes); the
filled array is modelled as the function of its entry. -/
def visitedAfterPass (store : ChunkStore) (own : BlockPos → Block)
    (selfChunkPos : ChunkPos) (face : BlockFace) (coord3 : ℤ) (x y : ℤ) : Bool :=
  if (0 ≤ x ∧ x < 32) ∧ (0 ≤ y ∧ y < 32) then
    visRule store own selfChunkPos face coord3 x y
  else false

/-- The is_occluded_by closure of Chunk::mesh_update_inner (chunk.rs lines
271-281): 1 when the block one step along the face normal exists and is not
translucent, 0 when it is translucent or its chunk is absent. -/
def isOccludedBy (store : ChunkStore) (own : BlockPos → Block)
    (selfChunkPos : ChunkPos) (face : BlockFace) (bp : BlockPos) : ℕ :=
  match withBlockIn store own selfChunkPos (bp + face.blockPosOffset) with
  | some b => if b.isTranslucent then 0 else 1
  | none => 0

/-- The combination rule of the second pass of Chunk::mesh_update_inner
(chunk.rs lines 291-295): the sum of the four diagonal contributor scores,
forced to 3 when two diagonally opposite contributors both score 1. -/
def occCombine (tl tr bl br : ℕ) : ℕ :=
  if (tl = 1 ∧ br = 1) ∨ (tr = 1 ∧ bl = 1) then 3 else tl + tr + bl + br

/-- The occlusion level of the vertex at in-plane (x, y) computed by the
second pass of Chunk::mesh_update_inner (chunk.rs lines 284-299). The source
writes every vertex of the 33 x 33 array exactly once; the filled array is
modelled as the function of its entry. -/
def occLevel (store : ChunkStore) (own : BlockPos → Block)
    (selfChunkPos : ChunkPos) (face : BlockFace) (coord3 x y : ℤ) : ℕ :=
  occCombine
    (isOccludedBy store own selfChunkPos face (getBlockPosOf face coord3 (x - 1) (y - 1)))
    (isOccludedBy store own selfChunkPos face (getBlockPosOf face coord3 x (y - 1)))
    (isOccludedBy store own selfChunkPos face (getBlockPosOf face coord3 (x - 1) y))
    (isOccludedBy store own selfChunkPos face (getBlockPosOf face coord3 x y))

/-- VisitedBlockMap::occlusion_level_matches (chunk.rs lines 76-83) between
the cells at in-plane (x1, y1) and (x2, y2). -/
def occLevelMatches (store : ChunkStore) (own : BlockPos → Block)
    (selfChunkPos : ChunkPos) (face : BlockFace) (coord3 x1 y1 x2 y2 : ℤ) : Bool :=
  decide (occLevel store own selfChunkPos face coord3 x1 y1
        = occLevel store own selfChunkPos face coord3 x2 y2)
  && decide (occLevel store own selfChunkPos face coord3 (x1 + 1) y1
        = occLevel store own selfChunkPos face coord3 (x2 + 1) y2)
  && decide (occLevel store own selfChunkPos face coord3 x1 (y1 + 1)
        = occLevel store own selfChunkPos face coord3 x2 (y2 + 1))
  && decide (occLevel store own selfChunkPos face coord3 (x1 + 1) (y1 + 1)
        = occLevel store own selfChunkPos face coord3 (x2 + 1) (y2 + 1))

/-- VisitedBlockMap::get_occlusion_data (chunk.rs lines 85-93) for the cell
at in-plane (x, y). -/
def getOcclusionData (store : ChunkStore) (own : BlockPos → Block)
    (selfChunkPos : ChunkPos) (face : BlockFace) (coord3 x y : ℤ) :
    OcclusionCorners :=
  { tl := occLevel store own selfChunkPos face coord3 x (y + 1)
    tr := occLevel store own selfChunkPos face coord3 (x + 1) (y + 1)
    bl := occLevel store own selfChunkPos face coord3 x y
    br := occLevel store own selfChunkPos face coord3 (x + 1) y }

/-- The visited map during the merge loop, indexed by in-plane coordinates. -/
abbrev Vis := ℤ → ℤ → Bool

/-- Marking one in-plane cell visited. -/
def visSet (vis : Vis) (x y : ℤ) : Vis :=
  fun a b => if a = x ∧ b = y then true else vis a b

/-- The run-extension loop of the merge pass (chunk.rs lines 317-333): from
the cell at in-plane (x, y), while the cell at (x, y + width) is chunk-local,
unvisited, of the same block type and with matching corner occlusion levels,
mark it visited and grow the run. The fuel dominates the iteration count;
with fuel at least 33 the fuel-exhausted branch is unreachable because
y + width leaves [0, 32). Returns the final width and visited map. -/
def extendWidth (store : ChunkStore) (own : BlockPos → Block)
    (selfChunkPos : ChunkPos) (face : BlockFace) (coord3 : ℤ)
    (bt : BlockType) (x y : ℤ) : ℕ → ℤ → Vis → ℤ × Vis
  | 0, width, vis => (width, vis)
  | fuel + 1, width, vis =>
    let cur := getBlockPosOf face coord3 x (y + width)
    if !cur.isChunkLocal then (width, vis)
    else if !vis x (y + width) && decide ((own cur).blockType = bt)
        && occLevelMatches store own selfChunkPos face coord3 x y x (y + width) then
      extendWidth store own selfChunkPos face coord3 bt x y fuel (width + 1)
        (visSet vis x (y + width))
    else (width, vis)

/-- One row of the merge pass of Chunk::mesh_update_inner (chunk.rs lines
301-379) at plane row x: scan y upward, skipping visited cells; at an
unvisited cell, extend a run, then emit one quad whose far corner is
get_block_pos_offset(block_pos, width - 1, height - 1) with height = 1
(note the source offsets the FIRST in-plane coordinate by width - 1 there,
while the run itself grew along the second; the model reproduces this
verbatim), and advance y by width. The fuel dominates the iteration count;
fuel 33 suffices since y grows by at least 1 per iteration. -/
def rowLoop (store : ChunkStore) (own : BlockPos → Block)
    (selfChunkPos : ChunkPos) (face : BlockFace) (coord3 x : ℤ) :
    ℕ → ℤ → Vis → List BlockFaceMeshModel → List BlockFaceMeshModel × Vis
  | 0, _, vis, acc => (acc, vis)
  | fuel + 1, y, vis, acc =>
    if 32 ≤ y then (acc, vis)
    else if vis x y then
      rowLoop store own selfChunkPos face coord3 x fuel (y + 1) vis acc
    else
      let block := own (getBlockPosOf face coord3 x y)
      let res := extendWidth store own selfChunkPos face coord3
        block.blockType x y 33 1 vis
      let quad : BlockFaceMeshModel :=
        { face := face
          srcBlock := block
          negCorner := getBlockPosOf face coord3 x y + selfChunkPos.asBlockPos
          posCorner := getBlockPosOf face coord3 (x + (res.1 - 1)) y
            + selfChunkPos.asBlockPos
          occ := getOcclusionData store own selfChunkPos face coord3 x y }
      rowLoop store own selfChunkPos face coord3 x fuel (y + res.1) res.2
        (acc ++ [quad])

/-- The quad list produced by Chunk::mesh_update_inner (chunk.rs lines
248-380) for one face and slice index: visibility pass, occlusion pass, then
the greedy merge over rows x = 0..32. -/
def meshSliceQuads (store : ChunkStore) (own : BlockPos → Block)
    (selfChunkPos : ChunkPos) (face : BlockFace) (index : ℕ) :
    List BlockFaceMeshModel :=
  let coord3 : ℤ := (index : ℤ)
  ((List.range 32).foldl
    (fun st (xn : ℕ) =>
      rowLoop store own selfChunkPos face coord3 (xn : ℤ) 33 0 st.2 st.1)
    ([], visitedAfterPass store own selfChunkPos face coord3)).1

/-- Chunk::mesh_update_inner as a chunk transformer: clears and rewrites the
mesh cache entry of the given face and slice index. -/
def Chunk.meshUpdateInner (c : Chunk) (store : ChunkStore) (face : BlockFace)
    (index : ℕ) : Chunk :=
  { c with
    chunkMesh := fun f i =>
      if f = face ∧ i = index then
        meshSliceQuads store c.blocks c.chunkPosition face index
      else c.chunkMesh f i }

/-- Chunk::chunk_mesh_update (chunk.rs lines 383-391): rebuild every slice of
every face. -/
def Chunk.chunkMeshUpdate (c : Chunk) (store : ChunkStore) : Chunk :=
  blockFaceList.foldl
    (fun ch face =>
      (List.range 32).foldl (fun ch2 i => ch2.meshUpdateInner store face i) ch)
    c

/-- Deferred work items (parallel.rs Task). -/
inductive Task
  | chunkMesh (chunk : ChunkPos)
  | chunkMeshFace (minChunk maxChunk : ChunkPos) (face : BlockFace)
  | generateChunk (chunk : ChunkPos)
  | unloadChunks (minChunk maxChunk : ChunkPos)
deriving DecidableEq, Repr

/-- The half-open integer range a..b as a list. -/
def intRange (a b : ℤ) : List ℤ :=
  (List.range (b - a).toNat).map (fun i : ℕ => a + (i : ℤ))

/-- All chunk coordinates of the half-open box, in the x-outer, y-middle,
z-inner order of the nested loops in world.rs and parallel.rs. -/
def boxCoords (minChunk maxChunk : ChunkPos) : List ChunkPos :=
  (intRange minChunk.x maxChunk.x).flatMap fun x =>
    (intRange minChunk.y maxChunk.y).flatMap fun y =>
      (intRange minChunk.z maxChunk.z).map fun z => (⟨x, y, z⟩ : ChunkPos)

/-- WorldGenerator::generate_chunk (worldgen/mod.rs lines 142-155) builds
LoadedChunk::new(Chunk::new(world, position, block_fn)) where block_fn is
the procedural noise sampler. The sampler is an external collaborator (spec
scope), so it is a parameter; the count-0 wrapper and the grid layout are
from the source. -/
def generateChunkModel (blockFn : BlockPos → Block) (position : ChunkPos) :
    LoadedChunk :=
  loadedChunkNew (chunkNew blockFn position)

/-- The entry(chunk).or_insert_with(generate) step of the GenerateChunk
branch of execute_task (parallel.rs lines 95-99): when absent, the freshly
generated chunk is inserted (with load count 0). -/
def entryOrInsert (blockFn : BlockPos → Block) (store : ChunkStore)
    (c : ChunkPos) : ChunkStore :=
  match store c with
  | some _ => store
  | none => storeUpdate store c (some (generateChunkModel blockFn c))

/-- The inc_load_count step of the GenerateChunk branch (parallel.rs line
101), applied to the (now present) entry. -/
def incAt (store : ChunkStore) (c : ChunkPos) : ChunkStore :=
  match store c with
  | some lc => storeUpdate store c (some lc.incLoadCount)
  | none => store

/-- One step of the ChunkMeshFace branch of execute_task (parallel.rs lines
73-93): when the chunk at c is present, rebuild the border slice of the
given face; when absent, skip. -/
def meshFaceStep (face : BlockFace) (index : ℕ) (s : ChunkStore)
    (c : ChunkPos) : ChunkStore :=
  match s c with
  | some lc =>
    storeUpdate s c (some { lc with chunk := lc.chunk.meshUpdateInner s face index })
  | none => s

/-- One step of the UnloadChunks branch of execute_task (parallel.rs lines
105-119): when the chunk at c is present, decrement its load count and
remove it when the decremented count is 0; when absent, skip. -/
def unloadStep (s : ChunkStore) (c : ChunkPos) : ChunkStore :=
  match s c with
  | some lc =>
    if decResult lc.loadCount = 0 then storeUpdate s c none
    else storeUpdate s c (some { lc with loadCount := decResult lc.loadCount })
  | none => s

/-- execute_task (parallel.rs lines 67-124): runs one task against the chunk
store and pushes the same task onto the completion queue. Returns the new
store and the list of completion records pushed. blockFn is the external
world-generation sampler. -/
def executeTask (blockFn : BlockPos → Block) (task : Task)
    (store : ChunkStore) : ChunkStore × List Task :=
  match task with
  | .chunkMesh c =>
    (match store c with
     | some lc =>
       storeUpdate store c (some { lc with chunk := lc.chunk.chunkMeshUpdate store })
     | none => store,
     [task])
  | .chunkMeshFace minChunk maxChunk face =>
    ((boxCoords minChunk maxChunk).foldl
      (meshFaceStep face (if face.isPositiveFace then 32 - 1 else 0))
      store,
     [task])
  | .generateChunk c =>
    (incAt (entryOrInsert blockFn store c) c, [task])
  | .unloadChunks minChunk maxChunk =>
    ((boxCoords minChunk maxChunk).foldl unloadStep store, [task])

/-- Executes a list of tasks in order, keeping only the store. -/
def runTasks (blockFn : BlockPos → Block) (tasks : List Task)
    (store : ChunkStore) : ChunkStore :=
  tasks.foldl (fun s t => (executeTask blockFn t s).1) store

/-- ChunkMeshFaceData (world.rs lines 27-31). -/
structure ChunkMeshFaceData where
  minChunk : ChunkPos
  maxChunk : ChunkPos
  face : BlockFace
deriving DecidableEq, Repr

/-- ChunkMeshFaceData::into_task (world.rs lines 33-41). -/
def ChunkMeshFaceData.intoTask (d : ChunkMeshFaceData) : Task :=
  .chunkMeshFace d.minChunk d.maxChunk d.face

/-- ChunkLoadJob (world.rs lines 43-51). -/
structure ChunkLoadJob where
  minChunk : ChunkPos
  maxChunk : ChunkPos
  remainingChunks : ℕ
  meshFaceTask : Option ChunkMeshFaceData
deriving DecidableEq, Repr

/-- ChunkLoadJob::contains_chunk (world.rs lines 54-61). -/
def ChunkLoadJob.containsChunk (j : ChunkLoadJob) (c : ChunkPos) : Prop :=
  j.minChunk.x ≤ c.x ∧ j.minChunk.y ≤ c.y ∧ j.minChunk.z ≤ c.z
    ∧ c.x < j.maxChunk.x ∧ c.y < j.maxChunk.y ∧ c.z < j.maxChunk.z

instance (j : ChunkLoadJob) (c : ChunkPos) : Decidable (j.containsChunk c) :=
  by unfold ChunkLoadJob.containsChunk; infer_instance

/-- The two job vectors of World (world.rs lines 75-76). -/
structure WorldJobs where
  chunkLoadJobs : List ChunkLoadJob
  chunkUnloadJobs : List ChunkLoadJob
deriving DecidableEq, Repr

/-- World::load_chunks (world.rs lines 128-146): pushes one load job whose
remaining count is the box volume, and submits one GenerateChunk task per
box coordinate. Returns the new job state and the submitted tasks. -/
def loadChunksCall (w : WorldJobs) (minChunk maxChunk : ChunkPos)
    (meshFaceTask : Option ChunkMeshFaceData) : WorldJobs × List Task :=
  ({ w with
      chunkLoadJobs := w.chunkLoadJobs
        ++ [{ minChunk := minChunk
              maxChunk := maxChunk
              remainingChunks :=
                ((maxChunk.x - minChunk.x) * (maxChunk.y - minChunk.y)
                  * (maxChunk.z - minChunk.z)).toNat
              meshFaceTask := meshFaceTask }] },
   (boxCoords minChunk maxChunk).map .generateChunk)

/-- World::unload_chunks (world.rs lines 152-164): pushes a job with
remaining count 1 onto chunk_load_jobs (the source pushes the unload job
onto the LOAD job vector, world.rs line 153) and submits one UnloadChunks
task for the whole box. -/
def unloadChunksCall (w : WorldJobs) (minChunk maxChunk : ChunkPos)
    (meshFaceTask : Option ChunkMeshFaceData) : WorldJobs × List Task :=
  ({ w with
      chunkLoadJobs := w.chunkLoadJobs
        ++ [{ minChunk := minChunk
              maxChunk := maxChunk
              remainingChunks := 1
              meshFaceTask := meshFaceTask }] },
   [.unloadChunks minChunk maxChunk])

/-- The UnloadChunks arm of World::poll_completed_tasks (world.rs lines
337-353): mark the render zones of the box dirty, then drain from
chunk_unload_jobs every job with the same bounds (Vec::drain_filter removes
every matching element when the iterator is dropped) and submit the
follow-up task of the first drained job, if any. Returns the new job state,
the new dirty set, and the tasks submitted. -/
def pollUnloadCompletion (w : WorldJobs) (zones : UpdatedRenderZones)
    (minChunk maxChunk : ChunkPos) :
    WorldJobs × UpdatedRenderZones × List Task :=
  let zones2 := markChunkZone zones minChunk maxChunk
  let matched := w.chunkUnloadJobs.filter
    (fun j => decide (j.minChunk = minChunk ∧ j.maxChunk = maxChunk))
  let kept := w.chunkUnloadJobs.filter
    (fun j => !decide (j.minChunk = minChunk ∧ j.maxChunk = maxChunk))
  let submitted :=
    match matched.head? with
    | some j =>
      match j.meshFaceTask with
      | some d => [d.intoTask]
      | none => []
    | none => []
  ({ w with chunkUnloadJobs := kept }, zones2, submitted)

/-- An exact rational value as an integer numerator over a positive integer
denominator, not necessarily reduced. Every f32 value handled by the raycast
theorems below is exactly representable and every f32 operation the run
performs is exact, so this type (with exact fraction arithmetic) computes
the same values as the source; it is used instead of ℚ only so that the
kernel can evaluate it (ℚ normalizes through Nat.gcd, which does not reduce
in the kernel). All operations keep the denominator positive. -/
structure Frac where
  num : ℤ
  den : ℤ
deriving DecidableEq

/-- The integer n as a fraction. -/
def Frac.ofInt (n : ℤ) : Frac := ⟨n, 1⟩

/-- Value-level strict comparison by cross multiplication (denominators are
positive for every value the model builds). -/
def Frac.blt (a b : Frac) : Bool := decide (a.num * b.den < b.num * a.den)

def Frac.add (a b : Frac) : Frac := ⟨a.num * b.den + b.num * a.den, a.den * b.den⟩

def Frac.sub (a b : Frac) : Frac := ⟨a.num * b.den - b.num * a.den, a.den * b.den⟩

def Frac.mul (a b : Frac) : Frac := ⟨a.num * b.num, a.den * b.den⟩

def Frac.neg (a : Frac) : Frac := ⟨-a.num, a.den⟩

/-- Reciprocal, flipping signs to keep the denominator positive; only ever
applied to nonzero values by the model (the source guards its divisions). -/
def Frac.inv (b : Frac) : Frac :=
  if 0 ≤ b.num then ⟨b.den, b.num⟩ else ⟨-b.den, -b.num⟩

def Frac.div (a b : Frac) : Frac := a.mul b.inv

def Frac.abs (a : Frac) : Frac := ⟨|a.num|, a.den⟩

/-- Floor to an integer (f32 floor): floor division for positive
denominators. -/
def Frac.floorZ (a : Frac) : ℤ := a.num.fdiv a.den

/-- Truncation toward zero (f32 trunc): Rust-style division for positive
denominators. -/
def Frac.truncZ (a : Frac) : ℤ := a.num.tdiv a.den

/-- Extended fractions with a positive infinity, modelling the f32 values
f32::INFINITY produced by the raycast intercept-time computations. -/
inductive EFloat
  | val (q : Frac)
  | inf
deriving DecidableEq

/-- Strict order on EFloat matching IEEE comparison with positive infinity. -/
def EFloat.lt : EFloat → EFloat → Bool
  | .val a, .val b => a.blt b
  | .val _, .inf => true
  | .inf, _ => false

/-- Addition on EFloat (finite plus infinity is infinity). -/
def EFloat.add : EFloat → EFloat → EFloat
  | .val a, .val b => .val (a.add b)
  | _, _ => .inf

/-- Fraction 3-vector, modelling glam Vec3 with exact arithmetic. -/
structure Vec3Q where
  x : Frac
  y : Frac
  z : Frac
deriving DecidableEq

/-- A triple of EFloat values, one per axis. -/
structure EFloat3 where
  x : EFloat
  y : EFloat
  z : EFloat
deriving DecidableEq

/-- Axis (types.rs Axis). -/
inductive Axis
  | x
  | y
  | z
deriving DecidableEq, Repr

/-- Component access on IVec3 by axis. -/
def IVec3.axisGet (v : IVec3) : Axis → ℤ
  | .x => v.x
  | .y => v.y
  | .z => v.z

/-- Adding to one component of an IVec3 (block_pos[axis] += dir[axis]). -/
def IVec3.axisAdd (v : IVec3) (a : Axis) (d : ℤ) : IVec3 :=
  match a with
  | .x => { v with x := v.x + d }
  | .y => { v with y := v.y + d }
  | .z => { v with z := v.z + d }

/-- Component access on EFloat3 by axis. -/
def EFloat3.axisGet (v : EFloat3) : Axis → EFloat
  | .x => v.x
  | .y => v.y
  | .z => v.z

/-- Setting one component of an EFloat3. -/
def EFloat3.axisSet (v : EFloat3) (a : Axis) (e : EFloat) : EFloat3 :=
  match a with
  | .x => { v with x := e }
  | .y => { v with y := e }
  | .z => { v with z := e }

/-- The f32 remainder by 1.0 (sign of the dividend): q - trunc(q). -/
def rustRemOne (q : Frac) : Frac := q.sub (Frac.ofInt q.truncZ)

/-- Squared length of an integer vector. The source compares
(block_pos - block_start_pos).length() > max_length on f32; for
max_length >= 0 this is equivalent to comparing squares, which stays exact
over the rationals (the theorems only use nonnegative max_length). -/
def lengthSq (v : IVec3) : ℤ := v.x * v.x + v.y * v.y + v.z * v.z

/-- World::with_block (world.rs lines 209-215): split into chunk and local
parts, look the chunk up, read the local block (the source applies
as_chunk_local to the already-local part again; harmless and reproduced). -/
def withBlockW (store : ChunkStore) (p : BlockPos) : Option Block :=
  match store p.asChunkBlockPos.1 with
  | some lc => some (lc.chunk.blocks p.asChunkBlockPos.2.asChunkLocal)
  | none => none

/-- One component of the intercept_time_interval vector (world.rs lines
250-256): |1 / elem|, or infinity when elem is 0. -/
def interceptIntervalOf (e : Frac) : EFloat :=
  if e.num ≠ 0 then .val ((Frac.ofInt 1).div e).abs else .inf

/-- One component of the ray_offset vector (world.rs lines 258-264). -/
def rayOffsetOf (e : Frac) : Frac :=
  if (Frac.ofInt 0).blt e then rustRemOne e else (Frac.ofInt 1).add (rustRemOne e)

/-- One component of the initial next_intercept_time vector (world.rs lines
266-274). -/
def nextInterceptInit (ray off : Frac) : EFloat :=
  if (Frac.ofInt 0).blt ray then .val (((Frac.ofInt 1).sub off).div ray)
  else if ray.blt (Frac.ofInt 0) then .val (off.neg.div ray)
  else .inf

/-- f32::signum as used on the (normalized) ray (world.rs line 248); exact
rationals have no negative zero, so signum of 0 is 1 as for f32 +0.0. -/
def signumQ (e : Frac) : ℤ := if e.blt (Frac.ofInt 0) then -1 else 1

/-- The choice of stepping axis (world.rs lines 290-298): x when strictly
smallest, else y when strictly before z, else z. -/
def chooseAxis (nit : EFloat3) : Axis :=
  if nit.x.lt nit.y && nit.x.lt nit.z then .x
  else if nit.y.lt nit.z then .y
  else .z

/-- The stepping loop of World::block_raycast (world.rs lines 276-302).
Each iteration advances block_pos one block along the axis with the
smallest next intercept time and then, exactly as the incrament_axis closure
does: returns no hit when the stepped cell is farther than max_length from
the start cell; CONTINUES WITHOUT UPDATING the intercept time when the
stepped cell is in an absent chunk (the question-mark operator inside the
closure maps a missing chunk to the loop-continue case); returns the cell
when its block is not air; otherwise bumps the intercept time of the axis
and continues. Outer none means fuel ran out (the theorems give enough fuel
for the run to finish); some none is no hit; some (some p) is a hit at p. -/
def blockRaycastLoop (store : ChunkStore) (startBp : BlockPos) (dir : IVec3)
    (interval : EFloat3) (maxLength : Frac) :
    ℕ → BlockPos → EFloat3 → Option (Option BlockPos)
  | 0, _, _ => none
  | fuel + 1, bp, nit =>
    let axis := chooseAxis nit
    let bp2 := bp.axisAdd axis (dir.axisGet axis)
    if (maxLength.mul maxLength).blt (Frac.ofInt (lengthSq (bp2 - startBp))) then
      some none
    else
      match withBlockW store bp2 with
      | none => blockRaycastLoop store startBp dir interval maxLength fuel bp2 nit
      | some b =>
        if b.isAir then
          blockRaycastLoop store startBp dir interval maxLength fuel bp2
            (nit.axisSet axis ((nit.axisGet axis).add (interval.axisGet axis)))
        else some (some bp2)

/-- World::block_raycast (world.rs lines 243-303). The source first
normalizes the ray; the model takes the ray already normalized (for the
axis-aligned unit rays used in the theorems, normalization is exact and the
identity, so every f32 operation of the modelled run is exact over ℚ). -/
def blockRaycast (store : ChunkStore) (rayStart : Vec3Q) (ray : Vec3Q)
    (maxLength : Frac) (fuel : ℕ) : Option (Option BlockPos) :=
  let blockStart : BlockPos := ⟨rayStart.x.floorZ, rayStart.y.floorZ, rayStart.z.floorZ⟩
  let dir : IVec3 := ⟨signumQ ray.x, signumQ ray.y, signumQ ray.z⟩
  let interval : EFloat3 :=
    ⟨interceptIntervalOf ray.x, interceptIntervalOf ray.y, interceptIntervalOf ray.z⟩
  let nit0 : EFloat3 :=
    ⟨nextInterceptInit ray.x (rayOffsetOf rayStart.x),
     nextInterceptInit ray.y (rayOffsetOf rayStart.y),
     nextInterceptInit ray.z (rayOffsetOf rayStart.z)⟩
  blockRaycastLoop store blockStart dir interval maxLength fuel blockStart nit0

/-- Membership of a chunk coordinate in the half-open box, phrased exactly
as ChunkLoadJob::contains_chunk tests it. -/
def inBox (minChunk maxChunk c : ChunkPos) : Prop :=
  minChunk.x ≤ c.x ∧ c.x < maxChunk.x
    ∧ minChunk.y ≤ c.y ∧ c.y < maxChunk.y
    ∧ minChunk.z ≤ c.z ∧ c.z < maxChunk.z

instance (minChunk maxChunk c : ChunkPos) : Decidable (inBox minChunk maxChunk c) :=
  by unfold inBox; infer_instance

/-! Concrete configurations used by the theorems below. -/

/-- A chunk store with no chunk loaded. -/
def emptyStore : ChunkStore := fun _ => none

/-- A block grid filled entirely with stone (a solid kind: not air, not
translucent). -/
def fullStone : BlockPos → Block := fun _ => Block.stone

/-- The origin chunk coordinate. -/
def originChunk : ChunkPos := ⟨0, 0, 0⟩

/-- World-generation sampler for the raycast bug scenario: one solid block
at global block coordinate (64, 0, 0), air elsewhere. -/
def blockFnBug : BlockPos → Block :=
  fun p => if p = ⟨64, 0, 0⟩ then Block.stone else Block.air

/-- Raycast bug scenario store: chunk (0,0,0) loaded and all air, chunk
(2,0,0) loaded with one solid block at (64,0,0), chunk (1,0,0) ABSENT. -/
def storeBug : ChunkStore := fun c =>
  if c = ⟨0, 0, 0⟩ then some (loadedChunkNew (chunkNew (fun _ => Block.air) ⟨0, 0, 0⟩))
  else if c = ⟨2, 0, 0⟩ then some (loadedChunkNew (chunkNew blockFnBug ⟨2, 0, 0⟩))
  else none

/-- World-generation sampler for the positive raycast scenario of the spec:
one solid block at (3, 0, 0), air elsewhere. -/
def blockFnSpec : BlockPos → Block :=
  fun p => if p = ⟨3, 0, 0⟩ then Block.stone else Block.air

/-- Positive raycast scenario store: only chunk (0,0,0) loaded, with the
single solid block at (3,0,0). -/
def storeSpec : ChunkStore := fun c =>
  if c = ⟨0, 0, 0⟩ then some (loadedChunkNew (chunkNew blockFnSpec ⟨0, 0, 0⟩)) else none

/-- The ray origin (0.5, 0.5, 0.5) of the raycast scenarios. -/
def rayStartHalf : Vec3Q := ⟨⟨1, 2⟩, ⟨1, 2⟩, ⟨1, 2⟩⟩

/-- The unit ray along +X (already normalized; normalization of (1,0,0) is
exact and the identity). -/
def rayPlusX : Vec3Q := ⟨⟨1, 1⟩, ⟨0, 1⟩, ⟨0, 1⟩⟩

/-- A follow-up border-face mesh task description for the unload scenario. -/
def followUpData : ChunkMeshFaceData := ⟨⟨0, 0, 0⟩, ⟨1, 1, 1⟩, BlockFace.xPos⟩

/-- Block grid for the occlusion witness: stone at (0,1,0) and (1,1,1), air
elsewhere; on the y = 0 slice of face YPos this makes the two contributors
diagonal at vertex (1,1) occluding and the other two non-occluding. -/
def ownOccl : BlockPos → Block :=
  fun p => if p = ⟨0, 1, 0⟩ ∨ p = ⟨1, 1, 1⟩ then Block.stone else Block.air

/-- Block grid for the mesher witness: one stone block at local (0,31,0) in
an otherwise air chunk. -/
def ownOneStone : BlockPos → Block :=
  fun p => if p = ⟨0, 31, 0⟩ then Block.stone else Block.air

/-- Store for the mesher witness: the +Y neighbor chunk (0,1,0) is loaded
and all air, so the top face of the stone block is visible. -/
def storeAirAbove : ChunkStore := fun c =>
  if c = ⟨0, 1, 0⟩ then some (loadedChunkNew (chunkNew (fun _ => Block.air) ⟨0, 1, 0⟩))
  else none

/-- A dirt chunk used by the generate-task witness. -/
def chunkDirt : Chunk := chunkNew (fun _ => Block.dirt) ⟨0, 0, 0⟩

/-- A store holding one chunk at the origin with load count 5. -/
def storeOneLoaded : ChunkStore := fun c =>
  if c = ⟨0, 0, 0⟩ then some ⟨chunkDirt, 5⟩ else none

/-- A placeholder quad for list head access in the mesher witness. -/
def quadDummy : BlockFaceMeshModel :=
  ⟨BlockFace.xPos, Block.air, ⟨0, 0, 0⟩, ⟨0, 0, 0⟩, ⟨0, 0, 0, 0⟩⟩

/-! Theorems. First a few bridging lemmas between Rust division (toward
zero) and Euclidean division. -/

/-- Rust remainder of a negated dividend negates. -/
theorem tmod_neg_left (a b : ℤ) : (-a).tmod b = -(a.tmod b) := by
  rw [Int.tmod_def, Int.tmod_def, Int.neg_tdiv]; ring

/-- Componentwise unfolding of IVec3 addition. -/
theorem IVec3.add_def (a b : IVec3) :
    a + b = ⟨a.x + b.x, a.y + b.y, a.z + b.z⟩ := rfl

/-- Componentwise unfolding of IVec3 subtraction. -/
theorem IVec3.sub_def (a b : IVec3) :
    a - b = ⟨a.x - b.x, a.y - b.y, a.z - b.z⟩ := rfl

/-- The nonneg-or-shifted Rust division used by the ChunkPos conversion is
Euclidean division by 32. -/
theorem coordToChunk_eq_ediv (e : ℤ) : coordToChunk e = e / 32 := by
  unfold coordToChunk rustDiv
  by_cases h : 0 ≤ e
  · rw [if_pos h]
    exact Int.tdiv_eq_ediv h (by norm_num)
  · rw [if_neg h, show e - (32 - 1) = -(31 - e) by ring, Int.neg_tdiv,
      Int.tdiv_eq_ediv (by omega) (by norm_num)]
    omega

/-- The chunk-local coordinate is the Euclidean remainder by 32. -/
theorem localCoord_eq_emod (e : ℤ) : localCoord e = e % 32 := by
  unfold localCoord rustRem
  by_cases h : 0 ≤ e
  · rw [if_pos h, Int.tmod_eq_emod h (by norm_num)]
  · rw [if_neg h, show e + 1 = -(-(e + 1)) by ring, tmod_neg_left,
      Int.tmod_eq_emod (by omega) (by norm_num)]
    omega

/-- The nonneg-or-shifted Rust division used by the render-zone snap is
Euclidean division by 8. -/
theorem zoneCoord_eq_ediv (e : ℤ) : zoneCoord e = e / 8 := by
  unfold zoneCoord rustDiv
  by_cases h : 0 ≤ e
  · rw [if_pos h]
    exact Int.tdiv_eq_ediv h (by norm_num)
  · rw [if_neg h, show e - 8 + 1 = -(7 - e) by ring, Int.neg_tdiv,
      Int.tdiv_eq_ediv (by omega) (by norm_num)]
    omega

/-- C1. Calling unload_chunks with a follow-up mesh-face task and then
handling the completion of the matching UnloadChunks task: the handler does
mark the render zones of the box dirty, but it submits NO task at all — the
job was registered on chunk_load_jobs (world.rs line 153) while the handler
drains chunk_unload_jobs (world.rs line 341), which no code path ever
populates, so the follow-up of the unload job is never run, contrary to the
claim. The world starts with both job vectors empty, as built by
World::load_from_file. -/
theorem unload_follow_up_not_submitted :
    (pollUnloadCompletion
      (unloadChunksCall ⟨[], []⟩ ⟨0, 0, 0⟩ ⟨1, 1, 1⟩ (some followUpData)).1
      ∅ ⟨0, 0, 0⟩ ⟨1, 1, 1⟩).2.2 = []
    ∧ (pollUnloadCompletion
      (unloadChunksCall ⟨[], []⟩ ⟨0, 0, 0⟩ ⟨1, 1, 1⟩ (some followUpData)).1
      ∅ ⟨0, 0, 0⟩ ⟨1, 1, 1⟩).2.1 = {(⟨0, 0, 0⟩ : ChunkPos)}
    ∧ (unloadChunksCall ⟨[], []⟩ ⟨0, 0, 0⟩ ⟨1, 1, 1⟩ (some followUpData)).1.chunkUnloadJobs
      = [] := by
  refine ⟨rfl, ?_, rfl⟩
  decide

/-- C4 counterexample. For a chunk filled entirely with stone and no
neighboring chunks in the store, rebuilding the top-face slice (face YPos,
slice index CHUNK_SIZE - 1 = 31) does NOT produce exactly one quad: the
visibility pass finds the +Y neighbor chunk absent for every cell and skips
the whole slice. -/
theorem mesh_full_solid_no_neighbors_not_one_quad :
    ¬ (meshSliceQuads emptyStore fullStone originChunk BlockFace.yPos 31).length = 1 := by
  decide

/-- C4 amended. For a chunk filled entirely with stone and no neighboring
chunks in the store, rebuilding the top-face slice produces no quads at all:
every cell is skipped because the occlusion-determining neighbor chunk is
absent. -/
theorem mesh_full_solid_no_neighbors_empty :
    meshSliceQuads emptyStore fullStone originChunk BlockFace.yPos 31 = [] := by
  decide

/-- C5. In a world where chunk (1,0,0) is ABSENT from the store, chunk
(0,0,0) is loaded and all air and chunk (2,0,0) is loaded with a solid block
at (64,0,0), the ray from (0.5, 0.5, 0.5) along +X with max_length 100 steps
into block (32,0,0) — whose containing chunk is absent — yet block_raycast
returns the hit (64,0,0) instead of aborting with no hit: the missing-chunk
case continues the loop (without updating the intercept time) rather than
returning None, contrary to the claim and to the doc comment of the function
(world.rs line 242). The second conjunct shows the chunk of (32,0,0) really
is absent; the third shows the positive scenario of the spec (single solid
block at (3,0,0), all traversed chunks loaded) does return (3,0,0). -/
theorem raycast_steps_through_missing_chunk :
    blockRaycast storeBug rayStartHalf rayPlusX ⟨100, 1⟩ 70
      = some (some ⟨64, 0, 0⟩)
    ∧ storeBug (chunkPosFromBlockPos ⟨32, 0, 0⟩) = none
    ∧ blockRaycast storeSpec rayStartHalf rayPlusX ⟨10, 1⟩ 10
      = some (some ⟨3, 0, 0⟩) := by
  refine ⟨?_, rfl, ?_⟩ <;> decide

/-- C7. Converting a chunk coordinate to a block coordinate and back is the
identity (including negative coordinates); chunk-local coordinates lie in
[0, CHUNK_SIZE) on every axis; and the pair returned by as_chunk_block_pos
recombines (chunk position as block position, plus local position) to the
original global block position. -/
theorem coordinate_conversions_roundtrip :
    (∀ c : ChunkPos, chunkPosFromBlockPos c.asBlockPos = c)
    ∧ (∀ p : BlockPos,
        (0 ≤ p.asChunkLocal.x ∧ p.asChunkLocal.x < 32)
        ∧ (0 ≤ p.asChunkLocal.y ∧ p.asChunkLocal.y < 32)
        ∧ (0 ≤ p.asChunkLocal.z ∧ p.asChunkLocal.z < 32))
    ∧ (∀ p : BlockPos, p.asChunkBlockPos.1.asBlockPos + p.asChunkBlockPos.2 = p) := by
  refine ⟨fun c => ?_, fun p => ?_, fun p => ?_⟩
  · obtain ⟨cx, cy, cz⟩ := c
    simp only [chunkPosFromBlockPos, ChunkPos.asBlockPos, coordToChunk_eq_ediv,
      IVec3.mk.injEq]
    refine ⟨?_, ?_, ?_⟩ <;> omega
  · obtain ⟨px, py, pz⟩ := p
    simp only [BlockPos.asChunkLocal, localCoord_eq_emod]
    refine ⟨⟨?_, ?_⟩, ⟨?_, ?_⟩, ⟨?_, ?_⟩⟩ <;> omega
  · obtain ⟨px, py, pz⟩ := p
    simp only [BlockPos.asChunkBlockPos, chunkPosFromBlockPos, BlockPos.asChunkLocal,
      ChunkPos.asBlockPos, coordToChunk_eq_ediv, localCoord_eq_emod,
      IVec3.add_def, IVec3.mk.injEq]
    refine ⟨?_, ?_, ?_⟩ <;> omega

/-- C8. In general, mark_chunk inserts the render-zone coordinate obtained
by flooring each chunk-coordinate axis toward negative infinity by the zone
size 8 and rescaling; in particular, mark_block on a block whose chunk
coordinate is (9, 0, 0) inserts zone (8, 0, 0) into the dirty set, and
neither (9, 0, 0) nor (0, 0, 0). -/
theorem mark_block_zone_floor :
    (∀ (s : UpdatedRenderZones) (c : ChunkPos),
      markChunk s c
        = insert (⟨8 * c.x.fdiv 8, 8 * c.y.fdiv 8, 8 * c.z.fdiv 8⟩ : ChunkPos) s)
    ∧ (∀ b : BlockPos, chunkPosFromBlockPos b = ⟨9, 0, 0⟩ →
        markBlock ∅ b = {(⟨8, 0, 0⟩ : ChunkPos)}
        ∧ (⟨9, 0, 0⟩ : ChunkPos) ∉ markBlock ∅ b
        ∧ (⟨0, 0, 0⟩ : ChunkPos) ∉ markBlock ∅ b) := by
  have hzone : ∀ c : ChunkPos,
      getRenderZoneOfChunk c
        = (⟨8 * c.x.fdiv 8, 8 * c.y.fdiv 8, 8 * c.z.fdiv 8⟩ : ChunkPos) := by
    intro c
    simp only [getRenderZoneOfChunk, zoneCoord_eq_ediv, IVec3.mk.injEq]
    refine ⟨?_, ?_, ?_⟩ <;> rw [Int.fdiv_eq_ediv _ (by norm_num)]
  constructor
  · intro s c
    rw [markChunk, hzone]
  · intro b hb
    have hmb : markBlock ∅ b = markChunk ∅ (⟨9, 0, 0⟩ : ChunkPos) := by
      rw [markBlock, hb]
    rw [hmb, markChunk, show getRenderZoneOfChunk (⟨9, 0, 0⟩ : ChunkPos)
      = (⟨8, 0, 0⟩ : ChunkPos) by decide]
    refine ⟨rfl, ?_, ?_⟩ <;> decide

/-- C8 witness: the block (288, 0, 0) has chunk coordinate (9, 0, 0). -/
theorem mark_block_zone_floor_witness :
    markBlock ∅ ⟨288, 0, 0⟩ = {(⟨8, 0, 0⟩ : ChunkPos)}
    ∧ (⟨9, 0, 0⟩ : ChunkPos) ∉ markBlock ∅ ⟨288, 0, 0⟩
    ∧ (⟨0, 0, 0⟩ : ChunkPos) ∉ markBlock ∅ ⟨288, 0, 0⟩ :=
  mark_block_zone_floor.2 ⟨288, 0, 0⟩ (by decide)

/-- C3. Executing GenerateChunk(c): when c is already present the stored
chunk (its block data included) is kept unchanged and only its load count is
incremented by exactly one (stated below any wraparound, hence the bound
hypothesis); when c is absent, the or_insert_with step first inserts the
freshly generated chunk with load count 0, and the single increment then
leaves it present with load count 1. -/
theorem generate_increments_load_count_once :
    ∀ (blockFn : BlockPos → Block) (store : ChunkStore) (c : ChunkPos),
    (∀ lc, store c = some lc → lc.loadCount + 1 < U64_MOD →
      (executeTask blockFn (.generateChunk c) store).1 c
        = some ⟨lc.chunk, lc.loadCount + 1⟩)
    ∧ (store c = none →
      entryOrInsert blockFn store c c = some ⟨chunkNew blockFn c, 0⟩
      ∧ (executeTask blockFn (.generateChunk c) store).1 c
        = some ⟨chunkNew blockFn c, 1⟩) := by
  intro blockFn store c
  constructor
  · intro lc h hlt
    simp [executeTask, entryOrInsert, h, incAt, storeUpdate,
      LoadedChunk.incLoadCount, Nat.mod_eq_of_lt hlt]
  · intro h
    have h0 : entryOrInsert blockFn store c c = some ⟨chunkNew blockFn c, 0⟩ := by
      simp [entryOrInsert, h, storeUpdate, generateChunkModel, loadedChunkNew]
    refine ⟨h0, ?_⟩
    simp [executeTask, incAt, h0, storeUpdate, LoadedChunk.incLoadCount,
      Nat.mod_eq_of_lt (show 0 + 1 < U64_MOD by norm_num [U64_MOD])]

/-- C3 witness: incrementing a chunk already present with load count 5. -/
theorem generate_increments_load_count_once_witness :
    (executeTask (fun _ => Block.air) (.generateChunk ⟨0, 0, 0⟩) storeOneLoaded).1 ⟨0, 0, 0⟩
      = some ⟨chunkDirt, 6⟩ :=
  (generate_increments_load_count_once (fun _ => Block.air) storeOneLoaded ⟨0, 0, 0⟩).1
    ⟨chunkDirt, 5⟩ rfl (by decide)

/-- Each occlusion contributor scores 0 or 1. -/
theorem isOccludedBy_zero_or_one (store : ChunkStore) (own : BlockPos → Block)
    (selfChunkPos : ChunkPos) (face : BlockFace) (bp : BlockPos) :
    isOccludedBy store own selfChunkPos face bp = 0
      ∨ isOccludedBy store own selfChunkPos face bp = 1 := by
  unfold isOccludedBy
  cases hw : withBlockIn store own selfChunkPos (bp + face.blockPosOffset) with
  | none => simp
  | some b => split <;> simp

/-- Each occlusion contributor score is at most 1. -/
theorem isOccludedBy_le_one (store : ChunkStore) (own : BlockPos → Block)
    (selfChunkPos : ChunkPos) (face : BlockFace) (bp : BlockPos) :
    isOccludedBy store own selfChunkPos face bp ≤ 1 := by
  rcases isOccludedBy_zero_or_one store own selfChunkPos face bp with h | h <;> omega

/-- The combination rule stays within 0..3 on 0/1 inputs. -/
theorem occCombine_le_three (a b c d : ℕ) (ha : a ≤ 1) (hb : b ≤ 1)
    (hc : c ≤ 1) (hd : d ≤ 1) : occCombine a b c d ≤ 3 := by
  unfold occCombine
  split <;> omega

/-- C6. The occlusion level of every vertex is the combination (sum forced
to 3 on a both-1 diagonal pair) of four 0/1 contributor scores and always
lies in 0..=3; and a vertex whose two diagonally opposite contributors
(top-left with bottom-right) score 1 while the other two score 0 gets level
exactly 3, never 2. -/
theorem occlusion_level_corner_rule :
    ∀ (store : ChunkStore) (own : BlockPos → Block) (selfChunkPos : ChunkPos)
      (face : BlockFace) (coord3 x y : ℤ),
    (∀ bp, isOccludedBy store own selfChunkPos face bp = 0
      ∨ isOccludedBy store own selfChunkPos face bp = 1)
    ∧ occLevel store own selfChunkPos face coord3 x y ≤ 3
    ∧ (isOccludedBy store own selfChunkPos face
          (getBlockPosOf face coord3 (x - 1) (y - 1)) = 1 →
       isOccludedBy store own selfChunkPos face
          (getBlockPosOf face coord3 x y) = 1 →
       isOccludedBy store own selfChunkPos face
          (getBlockPosOf face coord3 x (y - 1)) = 0 →
       isOccludedBy store own selfChunkPos face
          (getBlockPosOf face coord3 (x - 1) y) = 0 →
       occLevel store own selfChunkPos face coord3 x y = 3) := by
  intro store own selfChunkPos face coord3 x y
  refine ⟨isOccludedBy_zero_or_one store own selfChunkPos face, ?_, ?_⟩
  · unfold occLevel
    apply occCombine_le_three <;> exact isOccludedBy_le_one _ _ _ _ _
  · intro h1 h2 h3 h4
    unfold occLevel
    rw [h1, h2, h3, h4]
    decide

/-- C6 witness: on the y = 0 slice of face YPos over ownOccl, vertex (1, 1)
has its top-left and bottom-right contributors occluding and the other two
not, and scores exactly 3. -/
theorem occlusion_level_corner_rule_witness :
    occLevel emptyStore ownOccl ⟨0, 0, 0⟩ BlockFace.yPos 0 1 1 = 3 :=
  (occlusion_level_corner_rule emptyStore ownOccl ⟨0, 0, 0⟩ BlockFace.yPos 0 1 1).2.2
    (by decide) (by decide) (by decide) (by decide)

/-- A ChunkMeshFace fold step never creates a chunk at an absent coordinate. -/
theorem meshFaceStep_preserves_none (face : BlockFace) (index : ℕ)
    (s : ChunkStore) (c c2 : ChunkPos) (h : s c2 = none) :
    meshFaceStep face index s c c2 = none := by
  unfold meshFaceStep
  cases hc : s c with
  | none => exact h
  | some lc =>
    by_cases he : c2 = c
    · rw [he] at h
      rw [h] at hc
      exact absurd hc (by simp)
    · simp [storeUpdate, he, h]

/-- Folding ChunkMeshFace steps never creates a chunk at an absent
coordinate. -/
theorem foldl_meshFaceStep_preserves_none (face : BlockFace) (index : ℕ) :
    ∀ (L : List ChunkPos) (s : ChunkStore) (c2 : ChunkPos), s c2 = none →
    (L.foldl (meshFaceStep face index) s) c2 = none := by
  intro L
  induction L with
  | nil => intro s c2 h; exact h
  | cons c t ih =>
    intro s c2 h
    exact ih _ _ (meshFaceStep_preserves_none face index s c c2 h)

/-- An UnloadChunks fold step never creates a chunk at an absent
coordinate. -/
theorem unloadStep_preserves_none (s : ChunkStore) (c c2 : ChunkPos)
    (h : s c2 = none) : unloadStep s c c2 = none := by
  unfold unloadStep
  cases hc : s c with
  | none => exact h
  | some lc =>
    by_cases he : c2 = c
    · rw [he] at h
      rw [h] at hc
      exact absurd hc (by simp)
    · by_cases hd : decResult lc.loadCount = 0 <;> simp [hd, storeUpdate, he, h]

/-- Folding UnloadChunks steps never creates a chunk at an absent
coordinate. -/
theorem foldl_unloadStep_preserves_none :
    ∀ (L : List ChunkPos) (s : ChunkStore) (c2 : ChunkPos), s c2 = none →
    (L.foldl unloadStep s) c2 = none := by
  intro L
  induction L with
  | nil => intro s c2 h; exact h
  | cons c t ih =>
    intro s c2 h
    exact ih _ _ (unloadStep_preserves_none s c c2 h)

/-- C9. Executing a ChunkMesh task for an absent chunk leaves the store
untouched and still pushes the task to the completion queue; executing a
ChunkMeshFace or UnloadChunks task leaves every absent coordinate absent
(each absent chunk in the box is a skipped no-op) and still pushes the task
to the completion queue; the model is a total function, so no execution
panics. -/
theorem stale_tasks_skip_absent_chunks :
    ∀ (blockFn : BlockPos → Block) (store : ChunkStore)
      (c minChunk maxChunk : ChunkPos) (face : BlockFace),
    (store c = none →
      executeTask blockFn (.chunkMesh c) store = (store, [.chunkMesh c]))
    ∧ (∀ c2, store c2 = none →
        (executeTask blockFn (.chunkMeshFace minChunk maxChunk face) store).1 c2 = none)
    ∧ (executeTask blockFn (.chunkMeshFace minChunk maxChunk face) store).2
        = [.chunkMeshFace minChunk maxChunk face]
    ∧ (∀ c2, store c2 = none →
        (executeTask blockFn (.unloadChunks minChunk maxChunk) store).1 c2 = none)
    ∧ (executeTask blockFn (.unloadChunks minChunk maxChunk) store).2
        = [.unloadChunks minChunk maxChunk] := by
  intro blockFn store c minChunk maxChunk face
  refine ⟨fun h => by simp [executeTask, h], fun c2 h => ?_, rfl, fun c2 h => ?_, rfl⟩
  · exact foldl_meshFaceStep_preserves_none _ _ _ _ _ h
  · exact foldl_unloadStep_preserves_none _ _ _ h

/-- C9 witness: stale tasks against the empty store. -/
theorem stale_tasks_skip_absent_chunks_witness :
    executeTask (fun _ => Block.air) (.chunkMesh ⟨0, 0, 0⟩) emptyStore
      = (emptyStore, [.chunkMesh ⟨0, 0, 0⟩])
    ∧ (executeTask (fun _ => Block.air)
        (.chunkMeshFace ⟨0, 0, 0⟩ ⟨2, 2, 2⟩ BlockFace.xPos) emptyStore).1 ⟨1, 1, 1⟩ = none
    ∧ (executeTask (fun _ => Block.air)
        (.unloadChunks ⟨0, 0, 0⟩ ⟨2, 2, 2⟩) emptyStore).1 ⟨1, 1, 1⟩ = none :=
  ⟨(stale_tasks_skip_absent_chunks (fun _ => Block.air) emptyStore ⟨0, 0, 0⟩
      ⟨0, 0, 0⟩ ⟨2, 2, 2⟩ BlockFace.xPos).1 rfl,
   (stale_tasks_skip_absent_chunks (fun _ => Block.air) emptyStore ⟨0, 0, 0⟩
      ⟨0, 0, 0⟩ ⟨2, 2, 2⟩ BlockFace.xPos).2.1 ⟨1, 1, 1⟩ rfl,
   (stale_tasks_skip_absent_chunks (fun _ => Block.air) emptyStore ⟨0, 0, 0⟩
      ⟨0, 0, 0⟩ ⟨2, 2, 2⟩ BlockFace.xPos).2.2.2.1 ⟨1, 1, 1⟩ rfl⟩

/-- Membership in the half-open integer range list. -/
theorem mem_intRange (a b e : ℤ) : e ∈ intRange a b ↔ a ≤ e ∧ e < b := by
  unfold intRange
  simp only [List.mem_map, List.mem_range]
  constructor
  · rintro ⟨i, hi, rfl⟩
    omega
  · intro h
    exact ⟨(e - a).toNat, by omega, by omega⟩

/-- Elements of the box enumeration of a fixed x have that x as first
component; used for disjointness. -/
theorem boxCoords_inner_fst (x : ℤ) (ys zs : List ℤ) (q : ChunkPos)
    (hq : q ∈ ys.flatMap fun y => zs.map fun z => (⟨x, y, z⟩ : ChunkPos)) :
    q.x = x := by
  simp only [List.mem_flatMap, List.mem_map] at hq
  obtain ⟨y, -, z, -, rfl⟩ := hq
  rfl

/-- The half-open integer range list has no duplicates. -/
theorem nodup_intRange (a b : ℤ) : (intRange a b).Nodup := by
  unfold intRange
  refine List.Nodup.map ?_ (List.nodup_range _)
  intro i j h
  simp only [add_right_inj, Nat.cast_inj] at h
  exact h

/-- Membership in the box enumeration is box membership. -/
theorem mem_boxCoords (minChunk maxChunk c : ChunkPos) :
    c ∈ boxCoords minChunk maxChunk ↔ inBox minChunk maxChunk c := by
  obtain ⟨cx, cy, cz⟩ := c
  unfold boxCoords inBox
  simp only [List.mem_flatMap, List.mem_map, mem_intRange, IVec3.mk.injEq]
  constructor
  · rintro ⟨x, hx, y, hy, z, hz, hxe, hye, hze⟩
    subst hxe; subst hye; subst hze
    exact ⟨hx.1, hx.2, hy.1, hy.2, hz.1, hz.2⟩
  · intro h
    exact ⟨cx, ⟨h.1, h.2.1⟩, cy, ⟨h.2.2.1, h.2.2.2.1⟩, cz,
      ⟨h.2.2.2.2.1, h.2.2.2.2.2⟩, rfl, rfl, rfl⟩

/-- The box enumeration has no duplicates. -/
theorem nodup_boxCoords (minChunk maxChunk : ChunkPos) :
    (boxCoords minChunk maxChunk).Nodup := by
  unfold boxCoords
  rw [List.nodup_flatMap]
  constructor
  · intro x _
    rw [List.nodup_flatMap]
    constructor
    · intro y _
      exact List.Nodup.map (fun a b h => by simpa using h) (nodup_intRange _ _)
    · refine (nodup_intRange _ _).imp ?_
      intro a b hab q hqa hqb
      simp only [List.mem_map] at hqa hqb
      obtain ⟨za, -, rfl⟩ := hqa
      obtain ⟨zb, -, hz⟩ := hqb
      have hz2 := hz
      simp only [IVec3.mk.injEq] at hz2
      exact hab hz2.2.1.symm
  · refine (nodup_intRange _ _).imp ?_
    intro a b hab q hqa hqb
    have ha := boxCoords_inner_fst a _ _ q hqa
    have hb := boxCoords_inner_fst b _ _ q hqb
    exact hab (ha ▸ hb)

/-- Executing GenerateChunk(c) leaves every other coordinate untouched. -/
theorem generate_other (blockFn : BlockPos → Block) (s : ChunkStore)
    (c c2 : ChunkPos) (h : c2 ≠ c) :
    (executeTask blockFn (.generateChunk c) s).1 c2 = s c2 := by
  show incAt (entryOrInsert blockFn s c) c c2 = s c2
  unfold entryOrInsert incAt
  cases hc : s c with
  | some lc => simp [hc, storeUpdate, h]
  | none => simp [hc, storeUpdate, h]

/-- Executing GenerateChunk(c) on a store where c is absent leaves c present
with the generated chunk at load count 1. -/
theorem generate_at_absent (blockFn : BlockPos → Block) (s : ChunkStore)
    (c : ChunkPos) (h : s c = none) :
    (executeTask blockFn (.generateChunk c) s).1 c
      = some ⟨chunkNew blockFn c, 1⟩ := by
  show incAt (entryOrInsert blockFn s c) c c = some ⟨chunkNew blockFn c, 1⟩
  unfold entryOrInsert incAt
  simp [h, storeUpdate, generateChunkModel, loadedChunkNew, LoadedChunk.incLoadCount,
    Nat.mod_eq_of_lt (show 0 + 1 < U64_MOD by norm_num [U64_MOD])]

/-- Running generate tasks for a list of coordinates not containing c2
leaves c2 untouched. -/
theorem runTasks_gen_untouched (blockFn : BlockPos → Block) :
    ∀ (L : List ChunkPos) (s : ChunkStore) (c2 : ChunkPos), c2 ∉ L →
    runTasks blockFn (L.map .generateChunk) s c2 = s c2 := by
  intro L
  induction L with
  | nil => intro s c2 _; rfl
  | cons c t ih =>
    intro s c2 h
    have h2 : c2 ≠ c := fun he => h (he ▸ List.mem_cons_self c t)
    calc runTasks blockFn ((c :: t).map .generateChunk) s c2
        = runTasks blockFn (t.map .generateChunk)
            ((executeTask blockFn (.generateChunk c) s).1) c2 := rfl
      _ = (executeTask blockFn (.generateChunk c) s).1 c2 :=
          ih _ c2 (fun hm => h (List.mem_cons_of_mem c hm))
      _ = s c2 := generate_other blockFn s c c2 h2

/-- Running one generate task per coordinate of a duplicate-free list over a
store where c (a member) is absent leaves c present with load count 1. -/
theorem runTasks_gen_fresh (blockFn : BlockPos → Block) :
    ∀ (L : List ChunkPos) (s : ChunkStore) (c : ChunkPos), L.Nodup → c ∈ L →
    s c = none →
    runTasks blockFn (L.map .generateChunk) s c = some ⟨chunkNew blockFn c, 1⟩ := by
  intro L
  induction L with
  | nil => intro s c _ hm; exact absurd hm (List.not_mem_nil c)
  | cons h t ih =>
    intro s c hnd hm habs
    have hstep : runTasks blockFn ((h :: t).map .generateChunk) s
        = runTasks blockFn (t.map .generateChunk)
            ((executeTask blockFn (.generateChunk h) s).1) := rfl
    rw [hstep]
    by_cases he : c = h
    · subst he
      have hval : (executeTask blockFn (.generateChunk c) s).1 c
          = some ⟨chunkNew blockFn c, 1⟩ := generate_at_absent blockFn s c habs
      have hnotin : c ∉ t := (List.nodup_cons.1 hnd).1
      rw [runTasks_gen_untouched blockFn t _ c hnotin, hval]
    · have hmt : c ∈ t := (List.mem_cons.1 hm).resolve_left he
      exact ih _ c (List.nodup_cons.1 hnd).2 hmt
        ((generate_other blockFn s h c he).trans habs)

/-- An UnloadChunks fold step leaves every other coordinate untouched. -/
theorem unloadStep_other (s : ChunkStore) (c c2 : ChunkPos) (h : c2 ≠ c) :
    unloadStep s c c2 = s c2 := by
  unfold unloadStep
  cases hc : s c with
  | none => rfl
  | some lc =>
    by_cases hd : decResult lc.loadCount = 0 <;> simp [hd, storeUpdate, h]

/-- Folding UnloadChunks steps over a list containing c removes c when the
value at c is absent or has a load count whose decrement is 0. -/
theorem unload_fold_removes :
    ∀ (L : List ChunkPos) (s : ChunkStore) (c : ChunkPos), c ∈ L →
    (s c = none ∨ ∃ lc, s c = some lc ∧ decResult lc.loadCount = 0) →
    (L.foldl unloadStep s) c = none := by
  intro L
  induction L with
  | nil => intro s c hm; exact absurd hm (List.not_mem_nil c)
  | cons h t ih =>
    intro s c hm hv
    by_cases he : c = h
    · subst he
      have hnone : unloadStep s c c = none := by
        rcases hv with hv | ⟨lc, hlc, hdec⟩
        · unfold unloadStep
          rw [hv]
          exact hv
        · unfold unloadStep
          rw [hlc]
          simp [hdec, storeUpdate]
      exact foldl_unloadStep_preserves_none t _ c hnone
    · have hmt : c ∈ t := (List.mem_cons.1 hm).resolve_left he
      refine ih _ c hmt ?_
      rw [unloadStep_other s h c he]
      exact hv

/-- C2. If every chunk coordinate of the half-open box is absent from the
store, then after executing every GenerateChunk task submitted by
load_chunks for the box, followed by the single UnloadChunks task submitted
by unload_chunks for the same box, every chunk coordinate of the box is
absent from the store again. -/
theorem load_then_unload_box_absent :
    ∀ (blockFn : BlockPos → Block) (store : ChunkStore)
      (minChunk maxChunk : ChunkPos),
    (∀ c, inBox minChunk maxChunk c → store c = none) →
    ∀ c, inBox minChunk maxChunk c →
    runTasks blockFn (unloadChunksCall ⟨[], []⟩ minChunk maxChunk none).2
      (runTasks blockFn (loadChunksCall ⟨[], []⟩ minChunk maxChunk none).2 store) c
      = none := by
  intro blockFn store minChunk maxChunk habs c hc
  have hmem : c ∈ boxCoords minChunk maxChunk := (mem_boxCoords _ _ _).2 hc
  have h1 : runTasks blockFn ((boxCoords minChunk maxChunk).map .generateChunk)
      store c = some ⟨chunkNew blockFn c, 1⟩ :=
    runTasks_gen_fresh blockFn _ store c (nodup_boxCoords _ _) hmem (habs c hc)
  show ((boxCoords minChunk maxChunk).foldl unloadStep
    (runTasks blockFn ((boxCoords minChunk maxChunk).map .generateChunk) store)) c
    = none
  exact unload_fold_removes _ _ c hmem
    (Or.inr ⟨⟨chunkNew blockFn c, 1⟩, h1, (by decide : decResult 1 = 0)⟩)

/-- C2 witness: box from (0,0,0) to (2,1,1) over the empty store; after the
two loads complete and the unload executes, chunk (1,0,0) is absent. -/
theorem load_then_unload_box_absent_witness :
    inBox ⟨0, 0, 0⟩ ⟨2, 1, 1⟩ ⟨1, 0, 0⟩
    ∧ runTasks (fun _ => Block.air)
        (unloadChunksCall ⟨[], []⟩ ⟨0, 0, 0⟩ ⟨2, 1, 1⟩ none).2
        (runTasks (fun _ => Block.air)
          (loadChunksCall ⟨[], []⟩ ⟨0, 0, 0⟩ ⟨2, 1, 1⟩ none).2 emptyStore)
        ⟨1, 0, 0⟩ = none :=
  ⟨by decide,
   load_then_unload_box_absent (fun _ => Block.air) emptyStore ⟨0, 0, 0⟩ ⟨2, 1, 1⟩
     (fun _ _ => rfl) ⟨1, 0, 0⟩ (by decide)⟩

/-- Every non-air block kind has a texture index (Air is the only
untextured variant). -/
theorem textureIndex_isSome_of_not_air :
    ∀ b : Block, b.isAir = false → b.textureIndex.isSome = true := by
  intro b
  cases b <;> decide

/-- Marking a cell visited never unmarks another. -/
theorem visSet_mono (vis : Vis) (x y a b : ℤ) (h : vis a b = true) :
    visSet vis x y a b = true := by
  unfold visSet
  split
  · rfl
  · exact h

/-- The run-extension loop never unmarks a visited cell. -/
theorem extendWidth_vis_mono (store : ChunkStore) (own : BlockPos → Block)
    (selfChunkPos : ChunkPos) (face : BlockFace) (coord3 : ℤ) (bt : BlockType)
    (x y : ℤ) :
    ∀ (fuel : ℕ) (width : ℤ) (vis : Vis) (a b : ℤ), vis a b = true →
    (extendWidth store own selfChunkPos face coord3 bt x y fuel width vis).2 a b
      = true := by
  intro fuel
  induction fuel with
  | zero => intro width vis a b h; exact h
  | succ n ih =>
    intro width vis a b h
    simp only [extendWidth]
    split
    · exact h
    · split
      · exact ih _ _ a b (visSet_mono vis x (y + width) a b h)
      · exact h

/-- The run-extension loop never shrinks the width. -/
theorem extendWidth_width_le (store : ChunkStore) (own : BlockPos → Block)
    (selfChunkPos : ChunkPos) (face : BlockFace) (coord3 : ℤ) (bt : BlockType)
    (x y : ℤ) :
    ∀ (fuel : ℕ) (width : ℤ) (vis : Vis),
    width ≤ (extendWidth store own selfChunkPos face coord3 bt x y fuel width vis).1 := by
  intro fuel
  induction fuel with
  | zero => intro width vis; exact le_refl _
  | succ n ih =>
    intro width vis
    simp only [extendWidth]
    split
    · exact le_refl _
    · split
      · exact le_trans (by omega) (ih (width + 1) _)
      · exact le_refl _

/-- The merge row loop never unmarks a visited cell. -/
theorem rowLoop_vis_mono (store : ChunkStore) (own : BlockPos → Block)
    (selfChunkPos : ChunkPos) (face : BlockFace) (coord3 x : ℤ) :
    ∀ (fuel : ℕ) (y : ℤ) (vis : Vis) (acc : List BlockFaceMeshModel) (a b : ℤ),
    vis a b = true →
    (rowLoop store own selfChunkPos face coord3 x fuel y vis acc).2 a b = true := by
  intro fuel
  induction fuel with
  | zero => intro y vis acc a b h; exact h
  | succ n ih =>
    intro y vis acc a b h
    simp only [rowLoop]
    split
    · exact h
    · split
      · exact ih _ _ _ a b h
      · exact ih _ _ _ a b
          (extendWidth_vis_mono store own selfChunkPos face coord3 _ x y 33 1 vis a b h)

/-- Quads collected by the merge row loop at row x in [0, 32) all originate
from non-air blocks, provided every in-range air cell is already marked
visited and the accumulator is clean. -/
theorem rowLoop_quads_not_air (store : ChunkStore) (own : BlockPos → Block)
    (selfChunkPos : ChunkPos) (face : BlockFace) (coord3 x : ℤ)
    (hx0 : 0 ≤ x) (hx32 : x < 32) :
    ∀ (fuel : ℕ) (y : ℤ) (vis : Vis) (acc : List BlockFaceMeshModel),
    0 ≤ y →
    (∀ a b : ℤ, 0 ≤ a → a < 32 → 0 ≤ b → b < 32 →
      (own (getBlockPosOf face coord3 a b)).isAir = true → vis a b = true) →
    (∀ q ∈ acc, q.srcBlock.isAir = false) →
    ∀ q ∈ (rowLoop store own selfChunkPos face coord3 x fuel y vis acc).1,
      q.srcBlock.isAir = false := by
  intro fuel
  induction fuel with
  | zero => intro y vis acc _ _ hacc q hq; exact hacc q hq
  | succ n ih =>
    intro y vis acc hy hinv hacc q hq
    simp only [rowLoop] at hq
    by_cases hy32 : 32 ≤ y
    · rw [if_pos hy32] at hq
      exact hacc q hq
    · rw [if_neg hy32] at hq
      cases hvxy : vis x y with
      | true =>
        rw [hvxy, if_pos rfl] at hq
        exact ih (y + 1) vis acc (by omega) hinv hacc q hq
      | false =>
        rw [hvxy] at hq
        simp only [Bool.false_eq_true, if_false] at hq
        have hblock : (own (getBlockPosOf face coord3 x y)).isAir = false := by
          cases hair : (own (getBlockPosOf face coord3 x y)).isAir with
          | false => rfl
          | true =>
            rw [hinv x y hx0 hx32 hy (by omega) hair] at hvxy
            exact absurd hvxy (by simp)
        refine ih _ _ _ ?_ ?_ ?_ q hq
        · have := extendWidth_width_le store own selfChunkPos face coord3
            (own (getBlockPosOf face coord3 x y)).blockType x y 33 1 vis
          omega
        · intro a b ha0 ha32 hb0 hb32 hair
          exact extendWidth_vis_mono store own selfChunkPos face coord3 _ x y 33 1 vis a b
            (hinv a b ha0 ha32 hb0 hb32 hair)
        · intro q2 hq2
          rcases List.mem_append.1 hq2 with hq2 | hq2
          · exact hacc q2 hq2
          · rw [List.mem_singleton.1 hq2]
            exact hblock

/-- The visibility pass marks every in-range air cell visited. -/
theorem visitedAfterPass_air (store : ChunkStore) (own : BlockPos → Block)
    (selfChunkPos : ChunkPos) (face : BlockFace) (coord3 a b : ℤ)
    (ha0 : 0 ≤ a) (ha32 : a < 32) (hb0 : 0 ≤ b) (hb32 : b < 32)
    (hair : (own (getBlockPosOf face coord3 a b)).isAir = true) :
    visitedAfterPass store own selfChunkPos face coord3 a b = true := by
  unfold visitedAfterPass
  rw [if_pos ⟨⟨ha0, ha32⟩, hb0, hb32⟩]
  unfold visRule
  simp only [hair, if_true]

/-- Folding the merge loop over rows below 32 collects only quads from
non-air blocks, starting from a clean accumulator and a visited map covering
every in-range air cell. -/
theorem foldRows_quads_not_air (store : ChunkStore) (own : BlockPos → Block)
    (selfChunkPos : ChunkPos) (face : BlockFace) (coord3 : ℤ) :
    ∀ (L : List ℕ) (st : List BlockFaceMeshModel × Vis),
    (∀ xn ∈ L, xn < 32) →
    (∀ q ∈ st.1, q.srcBlock.isAir = false) →
    (∀ a b : ℤ, 0 ≤ a → a < 32 → 0 ≤ b → b < 32 →
      (own (getBlockPosOf face coord3 a b)).isAir = true → st.2 a b = true) →
    ∀ q ∈ (L.foldl (fun st (xn : ℕ) =>
        rowLoop store own selfChunkPos face coord3 (xn : ℤ) 33 0 st.2 st.1) st).1,
      q.srcBlock.isAir = false := by
  intro L
  induction L with
  | nil => intro st _ hacc _ q hq; exact hacc q hq
  | cons xh t ih =>
    intro st hL hacc hinv q hq
    rw [List.foldl_cons] at hq
    refine ih _ (fun xn hxn => hL xn (List.mem_cons_of_mem _ hxn)) ?_ ?_ q hq
    · exact rowLoop_quads_not_air store own selfChunkPos face coord3 (xh : ℤ)
        (Int.natCast_nonneg xh)
        (by exact_mod_cast hL xh (List.mem_cons_self _ _))
        33 0 st.2 st.1 (le_refl 0) hinv hacc
    · intro a b ha0 ha32 hb0 hb32 hair
      exact rowLoop_vis_mono store own selfChunkPos face coord3 (xh : ℤ) 33 0 st.2 st.1
        a b (hinv a b ha0 ha32 hb0 hb32 hair)

/-- C10. Every quad emitted by mesh_update_inner originates from a non-air
block (air cells are marked visited by the visibility pre-pass and the merge
loop only emits at unvisited cells), and that block has a texture index, so
the texture_index().unwrap() call at emission never panics. -/
theorem mesher_quads_never_air :
    ∀ (store : ChunkStore) (own : BlockPos → Block) (selfChunkPos : ChunkPos)
      (face : BlockFace) (index : ℕ) (q : BlockFaceMeshModel),
    q ∈ meshSliceQuads store own selfChunkPos face index →
    q.srcBlock.isAir = false ∧ q.srcBlock.textureIndex.isSome = true := by
  intro store own selfChunkPos face index q hq
  have hgood : ∀ q2 ∈ meshSliceQuads store own selfChunkPos face index,
      q2.srcBlock.isAir = false := by
    intro q2 hq2
    refine foldRows_quads_not_air store own selfChunkPos face (index : ℤ)
      (List.range 32) ([], visitedAfterPass store own selfChunkPos face (index : ℤ))
      (fun xn hxn => List.mem_range.1 hxn)
      (fun q3 hq3 => absurd hq3 (List.not_mem_nil q3))
      (fun a b ha0 ha32 hb0 hb32 hair =>
        visitedAfterPass_air store own selfChunkPos face (index : ℤ) a b
          ha0 ha32 hb0 hb32 hair)
      q2 hq2
  exact ⟨hgood q hq, textureIndex_isSome_of_not_air _ (hgood q hq)⟩

/-- C10 witness: one stone block at local (0,31,0) with an all-air chunk
above emits at least one quad, and its source block is non-air and
textured. -/
theorem mesher_quads_never_air_witness :
    ((meshSliceQuads storeAirAbove ownOneStone originChunk BlockFace.yPos 31).headD
        quadDummy).srcBlock.isAir = false
    ∧ ((meshSliceQuads storeAirAbove ownOneStone originChunk BlockFace.yPos 31).headD
        quadDummy).srcBlock.textureIndex.isSome = true :=
  mesher_quads_never_air storeAirAbove ownOneStone originChunk BlockFace.yPos 31
    ((meshSliceQuads storeAirAbove ownOneStone originChunk BlockFace.yPos 31).headD
      quadDummy)
    (by decide)

end Minecone
